import Mathlib

namespace Placer

/-!
A shallow embedding of the cell-placement optimizer: `helpers.py`
(rectangle geometry), `circuit.py` (modules, pins, nets and the
geometric mutators) and `local_search.py` (the guided local search).

Python integers are modelled as `Int` (they are unbounded) and Python
floats as `Rat` (every quantity the optimizer divides is a ratio of two
integers).  In-place mutation is modelled by explicit state passing:
a Python `Module` object is identified by its index into
`Circuit.modules`, a `Pin` object by the pair (owning module index,
index in the module's pin list), and every mutator returns the updated
`Circuit`.  The members of the Python set `connected_modules_pairs`
are arbitrary objects compared by identity, so they are modelled by a
tagged reference type `ObjRef`.
-/

/-- `helpers.Rectangle`. -/
structure Rectangle where
  x : Int
  y : Int
  width : Int
  height : Int
deriving DecidableEq, Repr

/-- `helpers.get_rectangles_overlap_area`: clamped overlap of two
axis-aligned rectangles. -/
def get_rectangles_overlap_area (rect1 rect2 : Rectangle) : Int :=
  let base := min (rect1.x + rect1.width) (rect2.x + rect2.width) - max rect1.x rect2.x
  let height := min (rect1.y + rect1.height) (rect2.y + rect2.height) - max rect1.y rect2.y
  (max base 0) * (max height 0)

/-- `circuit.Pin`: the `dx`, `dy` offsets inside the owning module.
`width` and `height` are class-level constants equal to 1. -/
structure Pin where
  dx : Int
  dy : Int
deriving DecidableEq, Repr

/-- `Pin.width`, the class constant 1. -/
def Pin.width (_ : Pin) : Int := 1

/-- `Pin.height`, the class constant 1. -/
def Pin.height (_ : Pin) : Int := 1

instance : Inhabited Pin := ⟨⟨0, 0⟩⟩

/-- `circuit.Module`: a placed rectangle. -/
structure Module where
  x : Int
  y : Int
  width : Int
  height : Int
deriving DecidableEq, Repr

instance : Inhabited Module := ⟨⟨0, 0, 0, 0⟩⟩

/-- `Module.area`. -/
def Module.area (m : Module) : Int := m.width * m.height

/-- The rectangle of a module in region coordinates. -/
def Module.rect (m : Module) : Rectangle := ⟨m.x, m.y, m.width, m.height⟩

/-- Identity of a Python `Pin` object: (owning module index, index in the
module's pin list). -/
abbrev PinRef := Nat × Nat

/-- Identity of an arbitrary Python object stored in the set
`connected_modules_pairs` (modules and pins are distinct objects, so a
module reference never compares equal to a pin reference). -/
inductive ObjRef where
  | moduleRef (i : Nat)
  | pinRef (p : PinRef)
deriving DecidableEq, Repr

/-- `circuit.DistancePerAxis`. -/
structure DistancePerAxis where
  dx : Int
  dy : Int
deriving DecidableEq, Repr

/-- `circuit.Axis`. -/
inductive Axis where
  | X
  | Y
deriving DecidableEq, Repr

/-- `circuit.Direction`. -/
inductive Direction where
  | NORTH
  | EAST
  | SOUTH
  | WEST
deriving DecidableEq, Repr

/-- `Direction.is_vertical`. -/
def Direction.is_vertical : Direction → Bool
  | .NORTH => true
  | .SOUTH => true
  | .EAST => false
  | .WEST => false

/-- `Direction.is_horizontal`. -/
def Direction.is_horizontal : Direction → Bool
  | .EAST => true
  | .WEST => true
  | .NORTH => false
  | .SOUTH => false

/-- `Direction.is_positive` (Y grows north, X grows east). -/
def Direction.is_positive : Direction → Bool
  | .NORTH => true
  | .EAST => true
  | .SOUTH => false
  | .WEST => false

/-- `Direction.is_negative`. -/
def Direction.is_negative : Direction → Bool
  | .SOUTH => true
  | .WEST => true
  | .NORTH => false
  | .EAST => false

/-- `circuit.Circuit`: `pins` is the `module_to_pins` map, index-aligned
with `modules`; a netlist is the list of identities of its pins. -/
structure Circuit where
  width : Int
  height : Int
  modules : List Module
  pins : List (List Pin)
  netlists : List (List PinRef)
  connected_modules_pairs : List (ObjRef × ObjRef)
deriving DecidableEq, Repr

/-- `Circuit.get_modules_overlap_area` (the membership asserts are
preconditions, not computation). -/
def get_modules_overlap_area (module1 module2 : Module) : Int :=
  get_rectangles_overlap_area module1.rect module2.rect

/-- `Circuit.get_modules_distance_per_axis`: per-axis gap, clamped at 0. -/
def get_modules_distance_per_axis (module1 module2 : Module) : DistancePerAxis :=
  let dx := max (module1.x - (module2.x + module2.width)) (module2.x - (module1.x + module1.width))
  let dy := max (module1.y - (module2.y + module2.height)) (module2.y - (module1.y + module1.height))
  ⟨max dx 0, max dy 0⟩

/-- The pairs inserted into `connected_modules_pairs` by
`Circuit.define_netlist`'s double loop over `netlist[i]`, `netlist[j]`
with `i < j`.  `Netlist.__getitem__` returns the *pin* at that index,
so the inserted elements are pairs of pin identities. -/
def net_pairs : List PinRef → List (ObjRef × ObjRef)
  | [] => []
  | p :: rest =>
      (rest.flatMap fun q => [(ObjRef.pinRef p, ObjRef.pinRef q), (ObjRef.pinRef q, ObjRef.pinRef p)])
        ++ net_pairs rest

/-- `Circuit.define_netlist`. -/
def Circuit.define_netlist (c : Circuit) (netlist : List PinRef) : Circuit :=
  { c with
      netlists := c.netlists ++ [netlist],
      connected_modules_pairs := c.connected_modules_pairs ++ net_pairs netlist }

/-- One pin under `Circuit.reflect_module` of the owning module `m`. -/
def reflect_pin (m : Module) (axis : Axis) (p : Pin) : Pin :=
  match axis with
  | .X => { p with dy := m.height - (p.dy + Pin.height p) }
  | .Y => { p with dx := m.width - (p.dx + Pin.width p) }

/-- `Circuit.reflect_module`: mirrors every pin of module `i`; the
module's rectangle itself does not move. -/
def Circuit.reflect_module (c : Circuit) (i : Nat) (axis : Axis) : Circuit :=
  let m := c.modules.getD i default
  { c with pins := c.pins.set i ((c.pins.getD i []).map (reflect_pin m axis)) }

/-- `Circuit.translate_module`: moves module `i` by `distance` along the
compass direction; no bounds check. -/
def Circuit.translate_module (c : Circuit) (i : Nat) (d : Direction) (distance : Int) : Circuit :=
  let m := c.modules.getD i default
  let dist := if d.is_positive then distance else -distance
  let m' := if d.is_vertical then { m with y := m.y + dist } else { m with x := m.x + dist }
  { c with modules := c.modules.set i m' }

/-- `Circuit.get_module_distance_until_boundary`. -/
def Circuit.get_module_distance_until_boundary (c : Circuit) (i : Nat) (d : Direction) : Int :=
  let m := c.modules.getD i default
  match d with
  | .NORTH => c.height - (m.y + m.height)
  | .EAST => c.width - (m.x + m.width)
  | .SOUTH => m.y
  | .WEST => m.x

/-- The `distance` computed for one other module in the loop body of
`Circuit.get_module_distance_until_collision`: 0 unless the two modules
overlap strictly on the axis orthogonal to `d`, in which case it is the
(possibly negative) gap to that module in direction `d`. -/
def collision_candidate (module1 : Module) (d : Direction) (module2 : Module) : Int :=
  if d.is_vertical then
    if module1.x < module2.x + module2.width ∧ module2.x < module1.x + module1.width then
      if d.is_positive then module2.y - (module1.y + module1.height)
      else module1.y - (module2.y + module2.height)
    else 0
  else
    if module1.y < module2.y + module2.height ∧ module2.y < module1.y + module1.height then
      if d.is_positive then module2.x - (module1.x + module1.width)
      else module1.x - (module2.x + module2.width)
    else 0

/-- The loop of `Circuit.get_module_distance_until_collision`: fold over
all modules (module `i` included, as in the source), taking the minimum
with every strictly positive candidate distance. -/
def collision_fold (module1 : Module) (d : Direction) : List Module → Int → Int
  | [], acc => acc
  | module2 :: rest, acc =>
      let dist := collision_candidate module1 d module2
      collision_fold module1 d rest (if 0 < dist then min acc dist else acc)

/-- `Circuit.get_module_distance_until_collision`. -/
def Circuit.get_module_distance_until_collision (c : Circuit) (i : Nat) (d : Direction) : Int :=
  collision_fold (c.modules.getD i default) d c.modules (c.get_module_distance_until_boundary i d)

/-- `Circuit.translate_module_until_collision`. -/
def Circuit.translate_module_until_collision (c : Circuit) (i : Nat) (d : Direction) : Circuit :=
  c.translate_module i d (c.get_module_distance_until_collision i d)

/-- The feasibility check of one elementary 90° step in
`Circuit.rotate_module_cw`: the rectangle with swapped dimensions must
stay inside the region. -/
def rotate_check (regionW regionH : Int) (m : Module) : Prop :=
  0 ≤ m.x + m.height ∧ m.x + m.height ≤ regionW ∧ 0 ≤ m.y + m.width ∧ m.y + m.width ≤ regionH

instance (regionW regionH : Int) (m : Module) : Decidable (rotate_check regionW regionH m) := by
  unfold rotate_check; infer_instance

/-- The module after one committed 90° clockwise step: width and height
swapped, position unchanged. -/
def rotate90_module (m : Module) : Module := { m with width := m.height, height := m.width }

/-- One pin after one committed 90° clockwise step of its module
(computed from the module dimensions *before* the swap, as in the
source: `pin.dx, pin.dy = pin.dy, module.width - (pin.dx + pin.width)`). -/
def rotate90_pin (m : Module) (p : Pin) : Pin := ⟨p.dy, m.width - (p.dx + Pin.width p)⟩

/-- The step loop of `Circuit.rotate_module_cw`: `m0`, `pins0` are the
pre-rotation snapshot; an infeasible step restores the snapshot and
stops. -/
def rotate_go (regionW regionH : Int) (m0 : Module) (pins0 : List Pin) :
    Nat → Module × List Pin → Module × List Pin
  | 0, st => st
  | n + 1, (m, pins) =>
      if rotate_check regionW regionH m then
        rotate_go regionW regionH m0 pins0 n (rotate90_module m, pins.map (rotate90_pin m))
      else (m0, pins0)

/-- `Circuit.rotate_module_cw`: `angle / 90` elementary clockwise steps
with snapshot rollback on the first infeasible step. -/
def Circuit.rotate_module_cw (c : Circuit) (i : Nat) (angle : Nat) : Circuit :=
  let m0 := c.modules.getD i default
  let pins0 := c.pins.getD i []
  let res := rotate_go c.width c.height m0 pins0 (angle / 90) (m0, pins0)
  { c with modules := c.modules.set i res.1, pins := c.pins.set i res.2 }

/-- A module fully inside the region (the containment invariant of
`DEBUG_sanity_check` for modules). -/
def Module.in_region (regionW regionH : Int) (m : Module) : Prop :=
  0 ≤ m.x ∧ m.x + m.width ≤ regionW ∧ 0 ≤ m.y ∧ m.y + m.height ≤ regionH

instance (regionW regionH : Int) (m : Module) : Decidable (m.in_region regionW regionH) := by
  unfold Module.in_region; infer_instance

/-- A pin fully inside its owning module (`Pin.__init__` asserts
`dx, dy ≥ 0`; `connect_module` asserts `dx + width ≤ module.width` and
`dy + height ≤ module.height`). -/
def Pin.inside (m : Module) (p : Pin) : Prop :=
  0 ≤ p.dx ∧ p.dx + Pin.width p ≤ m.width ∧ 0 ≤ p.dy ∧ p.dy + Pin.height p ≤ m.height

instance (m : Module) (p : Pin) : Decidable (p.inside m) := by
  unfold Pin.inside; infer_instance

/-- Every module fully inside the region and every pin fully inside its
module. -/
def Circuit.fully_contained (c : Circuit) : Prop :=
  ∀ i, i < c.modules.length →
    (c.modules.getD i default).in_region c.width c.height ∧
    ∀ p ∈ c.pins.getD i [], p.inside (c.modules.getD i default)

instance (c : Circuit) : Decidable c.fully_contained := by
  unfold Circuit.fully_contained; infer_instance

/-- The containment property exactly as the specification states it:
`0 ≤ x ≤ region.width − width`, `0 ≤ y ≤ region.height − height` for
modules and `0 ≤ dx + width ≤ module.width`,
`0 ≤ dy + height ≤ module.height` for pins. -/
def Circuit.claim_contained (c : Circuit) : Prop :=
  ∀ i, i < c.modules.length →
    (0 ≤ (c.modules.getD i default).x ∧
     (c.modules.getD i default).x ≤ c.width - (c.modules.getD i default).width ∧
     0 ≤ (c.modules.getD i default).y ∧
     (c.modules.getD i default).y ≤ c.height - (c.modules.getD i default).height) ∧
    ∀ p ∈ c.pins.getD i [],
      0 ≤ p.dx + Pin.width p ∧ p.dx + Pin.width p ≤ (c.modules.getD i default).width ∧
      0 ≤ p.dy + Pin.height p ∧ p.dy + Pin.height p ≤ (c.modules.getD i default).height

instance (c : Circuit) : Decidable c.claim_contained := by
  unfold Circuit.claim_contained; infer_instance

/-- The move set of `to_local_optimum_placement`: reflections,
translations until collision, and clockwise rotations. -/
inductive PlacementOp where
  | reflectOp (i : Nat) (axis : Axis)
  | translateCollisionOp (i : Nat) (d : Direction)
  | rotateOp (i : Nat) (angle : Nat)
deriving DecidableEq, Repr

/-- Apply one placement operation. -/
def Circuit.applyOp (c : Circuit) : PlacementOp → Circuit
  | .reflectOp i axis => c.reflect_module i axis
  | .translateCollisionOp i d => c.translate_module_until_collision i d
  | .rotateOp i angle => c.rotate_module_cw i angle

/-- Apply a finite sequence of placement operations. -/
def Circuit.applyOps (c : Circuit) : List PlacementOp → Circuit
  | [] => c
  | op :: rest => (c.applyOp op).applyOps rest

/-- `LocalSearch.PenaltyFeatures`: the three integer counters of one
module pair. -/
structure PenaltyFeatures where
  overlap : Int
  connection_x : Int
  connection_y : Int
deriving DecidableEq, Repr

/-- `LocalSearch.UtilityFeatures`. -/
structure UtilityFeatures where
  overlap : Rat
  connection_x : Rat
  connection_y : Rat
deriving DecidableEq, Repr

/-- The key list of `_init_modules_pairs_dict`: pairs of module indices
`(i, j)` with `i < j`, in the iteration order of the double loop. -/
def module_pairs (c : Circuit) : List (Nat × Nat) :=
  (List.range c.modules.length).flatMap fun i =>
    ((List.range c.modules.length).drop (i + 1)).map fun j => (i, j)

/-- The membership test `(module1, module2) in circuit.connected_modules_pairs`
performed by the local search, with module objects as the pair. -/
def Circuit.pair_connected (c : Circuit) (pr : Nat × Nat) : Prop :=
  (ObjRef.moduleRef pr.1, ObjRef.moduleRef pr.2) ∈ c.connected_modules_pairs

instance (c : Circuit) (pr : Nat × Nat) : Decidable (c.pair_connected pr) := by
  unfold Circuit.pair_connected; infer_instance

/-- The `UtilityFeatures` entry stored for pair `pr` by the first loop of
`LocalSearch.update_penalties` (each entry is written at most once, so the
dict is a pointwise function of the pair):
`overlap = (overlap_area + area1 + area2) / (1 + penalty.overlap)` when the
modules overlap, `connection_{x,y} = gap / (1 + penalty.connection_{x,y})`
when the pair is connected and the axis gap is positive, 0 otherwise. -/
def utility_features_of (c : Circuit) (pen : Nat × Nat → PenaltyFeatures)
    (pr : Nat × Nat) : UtilityFeatures :=
  let m1 := c.modules.getD pr.1 default
  let m2 := c.modules.getD pr.2 default
  let overlap_area := get_modules_overlap_area m1 m2
  let dist := get_modules_distance_per_axis m1 m2
  { overlap :=
      if 0 < overlap_area then
        ((overlap_area + m1.area + m2.area : Int) : Rat) / ((1 + (pen pr).overlap : Int) : Rat)
      else 0,
    connection_x :=
      if c.pair_connected pr ∧ 0 < dist.dx then
        ((dist.dx : Int) : Rat) / ((1 + (pen pr).connection_x : Int) : Rat)
      else 0,
    connection_y :=
      if c.pair_connected pr ∧ 0 < dist.dy then
        ((dist.dy : Int) : Rat) / ((1 + (pen pr).connection_y : Int) : Rat)
      else 0 }

/-- One iteration of the first loop of `LocalSearch.update_penalties`:
the accumulator carries `(any_overlap, max_utility)`; each flag/maximum
update happens under the same condition as in the source. -/
def penalty_scan_step (c : Circuit) (pen : Nat × Nat → PenaltyFeatures)
    (acc : Bool × Rat) (pr : Nat × Nat) : Bool × Rat :=
  let m1 := c.modules.getD pr.1 default
  let m2 := c.modules.getD pr.2 default
  let overlap_area := get_modules_overlap_area m1 m2
  let dist := get_modules_distance_per_axis m1 m2
  let u := utility_features_of c pen pr
  let acc1 : Bool × Rat := if 0 < overlap_area then (true, max acc.2 u.overlap) else acc
  let acc2 : Bool × Rat :=
    if c.pair_connected pr ∧ 0 < dist.dx then (acc1.1, max acc1.2 u.connection_x) else acc1
  if c.pair_connected pr ∧ 0 < dist.dy then (acc2.1, max acc2.2 u.connection_y) else acc2

/-- `LocalSearch.update_penalties`: the first loop computes utilities, the
overlap flag and the running maximum; if no pair overlaps the counters are
replaced by fresh zeros; the second loop increments every counter whose
utility equals the maximum.  The dict's domain is exactly `module_pairs c`;
outside it a lookup would be a `KeyError` in the source, modelled as the
unmodified base value. -/
def update_penalties (c : Circuit) (pen : Nat × Nat → PenaltyFeatures) :
    Nat × Nat → PenaltyFeatures :=
  let scan := (module_pairs c).foldl (penalty_scan_step c pen) (false, 0)
  let base : Nat × Nat → PenaltyFeatures := if scan.1 then pen else fun _ => ⟨0, 0, 0⟩
  fun pr =>
    if pr ∈ module_pairs c then
      let u := utility_features_of c pen pr
      ⟨(base pr).overlap + (if u.overlap = scan.2 then 1 else 0),
       (base pr).connection_x + (if u.connection_x = scan.2 then 1 else 0),
       (base pr).connection_y + (if u.connection_y = scan.2 then 1 else 0)⟩
    else base pr

/-- Whether some module pair of the circuit currently overlaps (the
condition that, when false, resets all penalties). -/
def any_overlap (c : Circuit) : Bool :=
  (module_pairs c).any fun pr =>
    0 < get_modules_overlap_area (c.modules.getD pr.1 default) (c.modules.getD pr.2 default)

/-- The maximum utility over all pairs and all three features (0 when
there is no pair, as in the source where `max_utility` starts at 0). -/
def max_utility (c : Circuit) (pen : Nat × Nat → PenaltyFeatures) : Rat :=
  ((module_pairs c).map fun pr =>
    let u := utility_features_of c pen pr
    max u.overlap (max u.connection_x u.connection_y)).foldl max 0

/-- `LocalSearch.__init__`: computing `penalties_weight` calls
`Circuit.get_avg_module_area`, which divides the total module area by the
module count — a `ZeroDivisionError` when the circuit has no modules. -/
def penalties_weight_init (c : Circuit) : Except String Rat :=
  if c.modules.length = 0 then
    Except.error "ZeroDivisionError: division by zero"
  else
    Except.ok (((c.modules.foldl (fun a m => a + m.area) 0 : Int) : Rat) /
      (c.modules.length : Rat) / 10)

/-- `LocalSearch.to_local_optimum_placement`.  The method first builds the
per-module action lists (pure closure construction), sets
`active_modules = circuit.modules`, and enters the `while` loop.  When the
module list is empty the loop exits at once and the method returns having
mutated nothing.  Otherwise the first statement of the loop body,
`pin = self.circuit.modules_pins[module]` (local_search.py line 146),
reads an attribute that `Circuit` does not define (the field is named
`module_to_pins`), so Python raises `AttributeError` before any move is
evaluated, scored, or committed. -/
def to_local_optimum_placement (c : Circuit) : Except String Circuit :=
  if c.modules.isEmpty then Except.ok c
  else Except.error "AttributeError: Circuit object has no attribute modules_pins"

/-- `LocalSearch(circuit)` followed by
`LocalSearch.to_optimal_placement(max_num_iterations)`: the constructor
faults on an empty module list, the method asserts
`max_num_iterations > 0`, and iteration 1 calls
`to_local_optimum_placement`, whose `AttributeError` propagates.  The
`ok` continuation is unreachable: the constructor rules out the empty
circuit and every non-empty circuit faults in the first pass, so the
rest of the outer loop is never executed and is not modelled further. -/
def to_optimal_placement (c : Circuit) (max_num_iterations : Nat) : Except String Circuit :=
  (penalties_weight_init c).bind fun _ =>
    if max_num_iterations = 0 then Except.error "AssertionError: max_num_iterations > 0"
    else (to_local_optimum_placement c).bind fun c1 => Except.ok c1

/-- Every elementary step of a rotation passes its feasibility check
along the trajectory actually executed by `rotate_go`. -/
def steps_all_ok (regionW regionH : Int) : Nat → Module → Prop
  | 0, _ => True
  | n + 1, m =>
      rotate_check regionW regionH m ∧ steps_all_ok regionW regionH n (rotate90_module m)

def steps_all_ok_dec (regionW regionH : Int) :
    (n : Nat) → (m : Module) → Decidable (steps_all_ok regionW regionH n m)
  | 0, _ => Decidable.isTrue trivial
  | n + 1, m =>
      have : Decidable (steps_all_ok regionW regionH n (rotate90_module m)) :=
        steps_all_ok_dec regionW regionH n (rotate90_module m)
      inferInstanceAs (Decidable (_ ∧ _))

instance (regionW regionH : Int) (n : Nat) (m : Module) :
    Decidable (steps_all_ok regionW regionH n m) := steps_all_ok_dec regionW regionH n m

/-- A 10×10 region with a single 2×2 module at the origin carrying one
pin at (0, 0). -/
def sample_single : Circuit := ⟨10, 10, [⟨0, 0, 2, 2⟩], [[⟨0, 0⟩]], [], []⟩

/-- Two modules sharing the x-band [0, 2): a 2×2 module at the origin
inside a 2×10 module spanning the full region height. -/
def sample_band : Circuit := ⟨10, 10, [⟨0, 0, 2, 2⟩, ⟨0, 0, 2, 10⟩], [[], []], [], []⟩

/-- Two 2×2 modules stacked in the same x-band with a vertical gap of 3. -/
def sample_stack : Circuit := ⟨10, 10, [⟨0, 0, 2, 2⟩, ⟨0, 5, 2, 2⟩], [[], []], [], []⟩

/-- Two 2×2 modules overlapping in a 1×1 square. -/
def sample_overlap : Circuit := ⟨10, 10, [⟨0, 0, 2, 2⟩, ⟨1, 1, 2, 2⟩], [[], []], [], []⟩

/-- Two disjoint 2×2 modules, each carrying one pin at (0, 0). -/
def sample_net : Circuit := ⟨10, 10, [⟨0, 0, 2, 2⟩, ⟨5, 5, 2, 2⟩], [[⟨0, 0⟩], [⟨0, 0⟩]], [], []⟩

/-- A 4×10 region with a 2×8 module: swapping its dimensions would
exceed the region width, so any clockwise rotation must roll back. -/
def sample_tall : Circuit := ⟨4, 10, [⟨0, 0, 2, 8⟩], [[⟨0, 0⟩]], [], []⟩

theorem list_set_getD {α : Type} (l : List α) (i : Nat) (d : α) :
    l.set i (l.getD i d) = l := by
  induction l generalizing i with
  | nil => rfl
  | cons a t ih =>
    cases i with
    | zero => rfl
    | succ k => simp only [List.getD_cons_succ, List.set_cons_succ, ih]

theorem list_getD_set_self {α : Type} (l : List α) (i : Nat) (a d : α) :
    (l.set i a).getD i d = if i < l.length then a else d := by
  induction l generalizing i with
  | nil => simp [List.set, List.getD]
  | cons b t ih =>
    cases i with
    | zero => simp
    | succ k => simpa using ih k

theorem list_getD_set_ne {α : Type} (l : List α) (i j : Nat) (a d : α) (h : j ≠ i) :
    (l.set i a).getD j d = l.getD j d := by
  induction l generalizing i j with
  | nil => rfl
  | cons b t ih =>
    cases i with
    | zero =>
      cases j with
      | zero => exact absurd rfl h
      | succ k => simp
    | succ k =>
      cases j with
      | zero => simp
      | succ r => simpa using ih k r (fun hk => h (by omega))

theorem collision_fold_le_init (m1 : Module) (d : Direction) (l : List Module) (init : Int) :
    collision_fold m1 d l init ≤ init := by
  induction l generalizing init with
  | nil => exact le_refl _
  | cons m2 rest ih =>
    by_cases hd : 0 < collision_candidate m1 d m2
    · simpa only [collision_fold, if_pos hd] using le_trans (ih _) (min_le_left _ _)
    · simpa only [collision_fold, if_neg hd] using ih _

theorem collision_fold_nonneg (m1 : Module) (d : Direction) (l : List Module) (init : Int)
    (h : 0 ≤ init) : 0 ≤ collision_fold m1 d l init := by
  induction l generalizing init with
  | nil => exact h
  | cons m2 rest ih =>
    by_cases hd : 0 < collision_candidate m1 d m2
    · simpa only [collision_fold, if_pos hd] using ih _ (le_min h hd.le)
    · simpa only [collision_fold, if_neg hd] using ih _ h

theorem collision_fold_le_candidate (m1 : Module) (d : Direction) (l : List Module)
    (m2 : Module) (hc : 0 < collision_candidate m1 d m2) :
    ∀ init, m2 ∈ l → collision_fold m1 d l init ≤ collision_candidate m1 d m2 := by
  induction l with
  | nil => intro init hm; cases hm
  | cons a rest ih =>
    intro init hm
    rcases List.mem_cons.mp hm with rfl | hm'
    · simpa only [collision_fold, if_pos hc] using
        le_trans (collision_fold_le_init _ _ _ _) (min_le_right _ _)
    · by_cases hd : 0 < collision_candidate m1 d a
      · simpa only [collision_fold, if_pos hd] using ih _ hm'
      · simpa only [collision_fold, if_neg hd] using ih _ hm'

theorem boundary_nonneg (c : Circuit) (i : Nat) (d : Direction)
    (h : (c.modules.getD i default).in_region c.width c.height) :
    0 ≤ c.get_module_distance_until_boundary i d := by
  obtain ⟨h1, h2, h3, h4⟩ := h
  cases d <;> simp only [Circuit.get_module_distance_until_boundary] <;> omega

theorem collision_distance_le_boundary (c : Circuit) (i : Nat) (d : Direction) :
    c.get_module_distance_until_collision i d ≤ c.get_module_distance_until_boundary i d :=
  collision_fold_le_init _ _ _ _

theorem collision_distance_nonneg (c : Circuit) (i : Nat) (d : Direction)
    (h : (c.modules.getD i default).in_region c.width c.height) :
    0 ≤ c.get_module_distance_until_collision i d :=
  collision_fold_nonneg _ _ _ _ (boundary_nonneg c i d h)

theorem list_getD_oob {α : Type} (l : List α) (i : Nat) (d : α) (h : l.length ≤ i) :
    l.getD i d = d := by
  induction l generalizing i with
  | nil => rfl
  | cons a t ih =>
    cases i with
    | zero => simp at h
    | succ k => simpa using ih k (by simpa using h)

theorem translate_module_getD_self (c : Circuit) (i : Nat) (d : Direction) (dist : Int)
    (hi : i < c.modules.length) :
    (c.translate_module i d dist).modules.getD i default =
      (match d with
       | .NORTH => { c.modules.getD i default with y := (c.modules.getD i default).y + dist }
       | .EAST => { c.modules.getD i default with x := (c.modules.getD i default).x + dist }
       | .SOUTH => { c.modules.getD i default with y := (c.modules.getD i default).y + -dist }
       | .WEST => { c.modules.getD i default with x := (c.modules.getD i default).x + -dist }) := by
  cases d <;>
  · simp only [Circuit.translate_module]
    rw [list_getD_set_self, if_pos hi]
    simp [Direction.is_positive, Direction.is_vertical]

theorem translate_collision_in_region (c : Circuit) (i : Nat) (d : Direction)
    (hi : i < c.modules.length)
    (h : (c.modules.getD i default).in_region c.width c.height) :
    ((c.translate_module_until_collision i d).modules.getD i default).in_region
      c.width c.height := by
  have h0 := collision_distance_nonneg c i d h
  have h1 := collision_distance_le_boundary c i d
  obtain ⟨r1, r2, r3, r4⟩ := h
  cases d <;>
  · simp only [Circuit.get_module_distance_until_boundary] at h1
    simp only [Circuit.translate_module_until_collision]
    rw [translate_module_getD_self c i _ _ hi]
    simp only [Module.in_region] at *
    refine ⟨?_, ?_, ?_, ?_⟩ <;> omega

theorem translate_module_dims (c : Circuit) (i j : Nat) (d : Direction) (dist : Int) :
    ((c.translate_module i d dist).modules.getD j default).width =
      (c.modules.getD j default).width ∧
    ((c.translate_module i d dist).modules.getD j default).height =
      (c.modules.getD j default).height := by
  by_cases hij : j = i
  · subst hij
    by_cases hj : j < c.modules.length
    · rw [translate_module_getD_self c j d dist hj]
      cases d <;> exact ⟨rfl, rfl⟩
    · simp only [Circuit.translate_module]
      rw [list_getD_set_self, if_neg hj, list_getD_oob _ _ _ (by omega)]
      exact ⟨rfl, rfl⟩
  · simp only [Circuit.translate_module]
    rw [list_getD_set_ne _ _ _ _ _ hij]
    exact ⟨rfl, rfl⟩

theorem pin_inside_of_dims (m m' : Module) (p : Pin) (hw : m'.width = m.width)
    (hh : m'.height = m.height) (h : p.inside m) : p.inside m' := by
  simp only [Pin.inside, Pin.width, Pin.height] at *
  omega

theorem reflect_preserves_contained (c : Circuit) (i : Nat) (axis : Axis)
    (h : c.fully_contained) : (c.reflect_module i axis).fully_contained := by
  intro j hj
  simp only [Circuit.reflect_module] at hj ⊢
  refine ⟨(h j hj).1, ?_⟩
  by_cases hij : j = i
  · subst hij
    rw [list_getD_set_self]
    split
    · intro p hpmem
      rcases List.mem_map.mp hpmem with ⟨q, hq, rfl⟩
      have hq' := (h j hj).2 q hq
      cases axis <;>
      · simp only [reflect_pin, Pin.inside, Pin.width, Pin.height] at *
        omega
    · intro p hpmem
      exact absurd hpmem (List.not_mem_nil p)
  · rw [list_getD_set_ne _ _ _ _ _ hij]
    exact (h j hj).2

theorem translate_collision_preserves_contained (c : Circuit) (i : Nat) (d : Direction)
    (h : c.fully_contained) : (c.translate_module_until_collision i d).fully_contained := by
  intro j hj
  have hlen : (c.translate_module_until_collision i d).modules.length = c.modules.length := by
    simp [Circuit.translate_module_until_collision, Circuit.translate_module]
  rw [hlen] at hj
  have hpins : (c.translate_module_until_collision i d).pins = c.pins := rfl
  by_cases hij : j = i
  · subst hij
    refine ⟨translate_collision_in_region c j d hj (h j hj).1, ?_⟩
    rw [hpins]
    intro p hpmem
    obtain ⟨hw, hh⟩ := translate_module_dims c j j d (c.get_module_distance_until_collision j d)
    exact pin_inside_of_dims _ _ p hw hh ((h j hj).2 p hpmem)
  · have hmod : (c.translate_module_until_collision i d).modules.getD j default =
        c.modules.getD j default := by
      simp only [Circuit.translate_module_until_collision, Circuit.translate_module]
      exact list_getD_set_ne _ _ _ _ _ hij
    rw [hpins, hmod]
    exact h j hj

theorem rotate_check_step (regionW regionH : Int) (m : Module)
    (hc : rotate_check regionW regionH m) (hm : m.in_region regionW regionH) :
    (rotate90_module m).in_region regionW regionH := by
  simp only [rotate_check, Module.in_region, rotate90_module] at *
  omega

theorem rotate_pin_step (m : Module) (p : Pin) (hp : p.inside m) :
    (rotate90_pin m p).inside (rotate90_module m) := by
  simp only [Pin.inside, rotate90_pin, rotate90_module, Pin.width, Pin.height] at *
  omega

theorem rotate_go_preserves (regionW regionH : Int) (m0 : Module) (pins0 : List Pin)
    (h0 : m0.in_region regionW regionH) (hp0 : ∀ p ∈ pins0, p.inside m0) :
    ∀ (n : Nat) (m : Module) (pins : List Pin),
      m.in_region regionW regionH → (∀ p ∈ pins, p.inside m) →
      (rotate_go regionW regionH m0 pins0 n (m, pins)).1.in_region regionW regionH ∧
      ∀ p ∈ (rotate_go regionW regionH m0 pins0 n (m, pins)).2,
        p.inside (rotate_go regionW regionH m0 pins0 n (m, pins)).1 := by
  intro n
  induction n with
  | zero => intro m pins hm hp; exact ⟨hm, hp⟩
  | succ k ih =>
    intro m pins hm hp
    by_cases hc : rotate_check regionW regionH m
    · have hm' := rotate_check_step regionW regionH m hc hm
      have hp' : ∀ p ∈ pins.map (rotate90_pin m), p.inside (rotate90_module m) := by
        intro p hpmem
        rcases List.mem_map.mp hpmem with ⟨q, hq, rfl⟩
        exact rotate_pin_step m q (hp q hq)
      simpa only [rotate_go, if_pos hc] using
        ih (rotate90_module m) (pins.map (rotate90_pin m)) hm' hp'
    · simp only [rotate_go, if_neg hc]
      exact ⟨h0, hp0⟩

theorem rotate_preserves_contained (c : Circuit) (i : Nat) (angle : Nat)
    (h : c.fully_contained) : (c.rotate_module_cw i angle).fully_contained := by
  intro j hj
  have hlen : (c.rotate_module_cw i angle).modules.length = c.modules.length := by
    simp [Circuit.rotate_module_cw]
  rw [hlen] at hj
  by_cases hij : j = i
  · subst hij
    have R := rotate_go_preserves c.width c.height (c.modules.getD j default)
      (c.pins.getD j []) (h j hj).1 ((h j hj).2) (angle / 90)
      (c.modules.getD j default) (c.pins.getD j []) (h j hj).1 ((h j hj).2)
    simp only [Circuit.rotate_module_cw]
    rw [list_getD_set_self, if_pos hj, list_getD_set_self]
    refine ⟨R.1, ?_⟩
    split
    · exact R.2
    · intro p hpmem
      exact absurd hpmem (List.not_mem_nil p)
  · simp only [Circuit.rotate_module_cw]
    rw [list_getD_set_ne _ _ _ _ _ hij, list_getD_set_ne _ _ _ _ _ hij]
    exact h j hj

theorem applyOp_preserves_contained (c : Circuit) (op : PlacementOp)
    (h : c.fully_contained) : (c.applyOp op).fully_contained := by
  cases op with
  | reflectOp i axis => exact reflect_preserves_contained c i axis h
  | translateCollisionOp i d => exact translate_collision_preserves_contained c i d h
  | rotateOp i angle => exact rotate_preserves_contained c i angle h

theorem applyOps_preserves_contained (c : Circuit) (ops : List PlacementOp)
    (h : c.fully_contained) : (c.applyOps ops).fully_contained := by
  induction ops generalizing c with
  | nil => exact h
  | cons op rest ih => exact ih _ (applyOp_preserves_contained c op h)

theorem rotate_go_fail (regionW regionH : Int) (m0 : Module) (pins0 : List Pin) :
    ∀ (n : Nat) (m : Module) (pins : List Pin), ¬ steps_all_ok regionW regionH n m →
      rotate_go regionW regionH m0 pins0 n (m, pins) = (m0, pins0) := by
  intro n
  induction n with
  | zero => intro m pins h; exact absurd True.intro h
  | succ k ih =>
    intro m pins h
    by_cases hc : rotate_check regionW regionH m
    · have hrest : ¬ steps_all_ok regionW regionH k (rotate90_module m) := fun hs => h ⟨hc, hs⟩
      simpa only [rotate_go, if_pos hc] using ih _ _ hrest
    · simp only [rotate_go, if_neg hc]

theorem rotate_module_cw_length (c : Circuit) (i angle : Nat) :
    (c.rotate_module_cw i angle).modules.length = c.modules.length := by
  simp [Circuit.rotate_module_cw]

theorem list_getD_set_map {α : Type} (l : List (List α)) (i : Nat) (g : List α → List α)
    (hg : g [] = []) : (l.set i (g (l.getD i []))).getD i [] = g (l.getD i []) := by
  rw [list_getD_set_self]
  split
  · rfl
  · next h => rw [list_getD_oob _ _ _ (by omega), hg]

theorem rotate_module_cw_single (c : Circuit) (i : Nat)
    (hc : rotate_check c.width c.height (c.modules.getD i default)) :
    c.rotate_module_cw i 90 =
      { c with
          modules := c.modules.set i (rotate90_module (c.modules.getD i default)),
          pins := c.pins.set i
            ((c.pins.getD i []).map (rotate90_pin (c.modules.getD i default))) } := by
  simp only [Circuit.rotate_module_cw, show (90 : Nat) / 90 = 1 from rfl, rotate_go, if_pos hc]

theorem rotate_cw_90_getD (c : Circuit) (i : Nat) (hi : i < c.modules.length)
    (hc : rotate_check c.width c.height (c.modules.getD i default)) :
    (c.rotate_module_cw i 90).modules.getD i default =
        rotate90_module (c.modules.getD i default) ∧
    (c.rotate_module_cw i 90).pins.getD i [] =
        (c.pins.getD i []).map (rotate90_pin (c.modules.getD i default)) := by
  rw [rotate_module_cw_single c i hc]
  constructor
  · rw [list_getD_set_self]
    exact if_pos hi
  · exact list_getD_set_map _ _ _ rfl

theorem rotate90_module_four (m : Module) :
    rotate90_module (rotate90_module (rotate90_module (rotate90_module m))) = m := by
  cases m; rfl

theorem rotate90_pin_four (m : Module) (p : Pin) :
    rotate90_pin (rotate90_module (rotate90_module (rotate90_module m)))
      (rotate90_pin (rotate90_module (rotate90_module m))
        (rotate90_pin (rotate90_module m) (rotate90_pin m p))) = p := by
  cases m; cases p
  simp only [rotate90_pin, rotate90_module, Pin.width, Pin.mk.injEq]
  constructor <;> ring

theorem list_map_four {α : Type} (f1 f2 f3 f4 : α → α) (h : ∀ a, f4 (f3 (f2 (f1 a))) = a)
    (l : List α) : (((l.map f1).map f2).map f3).map f4 = l := by
  induction l with
  | nil => rfl
  | cons a t ih =>
    simp only [List.map_cons]
    rw [h a, ih]

theorem contained_weaken (c : Circuit) (h : c.fully_contained) : c.claim_contained := by
  intro j hj
  obtain ⟨hm, hp⟩ := h j hj
  constructor
  · simp only [Module.in_region] at hm
    refine ⟨hm.1, ?_, hm.2.2.1, ?_⟩ <;> omega
  · intro p hpm
    have := hp p hpm
    simp only [Pin.inside, Pin.width, Pin.height] at *
    omega

theorem list_getD_mem {α : Type} (l : List α) (i : Nat) (d : α) (h : i < l.length) :
    l.getD i d ∈ l := by
  induction l generalizing i with
  | nil => simp at h
  | cons a t ih =>
    cases i with
    | zero => exact List.mem_cons_self _ _
    | succ k => exact List.mem_cons_of_mem _ (ih k (by simpa using h))

theorem overlap_zero_of_height (r1 r2 : Rectangle)
    (h : min (r1.y + r1.height) (r2.y + r2.height) - max r1.y r2.y ≤ 0) :
    get_rectangles_overlap_area r1 r2 = 0 := by
  simp only [get_rectangles_overlap_area]
  have hz : max (min (r1.y + r1.height) (r2.y + r2.height) - max r1.y r2.y) 0 = 0 := by omega
  rw [hz, mul_zero]

theorem overlap_zero_of_base (r1 r2 : Rectangle)
    (h : min (r1.x + r1.width) (r2.x + r2.width) - max r1.x r2.x ≤ 0) :
    get_rectangles_overlap_area r1 r2 = 0 := by
  simp only [get_rectangles_overlap_area]
  have hz : max (min (r1.x + r1.width) (r2.x + r2.width) - max r1.x r2.x) 0 = 0 := by omega
  rw [hz, zero_mul]

theorem translate_collision_clears (c : Circuit) (i j : Nat) (d : Direction)
    (hi : i < c.modules.length) (hj : j < c.modules.length) (hij : j ≠ i)
    (hgap : 0 < collision_candidate (c.modules.getD i default) d (c.modules.getD j default)) :
    get_modules_overlap_area
      ((c.translate_module_until_collision i d).modules.getD i default)
      ((c.translate_module_until_collision i d).modules.getD j default) = 0 := by
  have hmem := list_getD_mem c.modules j default hj
  have hD : c.get_module_distance_until_collision i d ≤
      collision_candidate (c.modules.getD i default) d (c.modules.getD j default) :=
    collision_fold_le_candidate _ _ _ _ hgap _ hmem
  have hjmod : (c.translate_module_until_collision i d).modules.getD j default =
      c.modules.getD j default := by
    simp only [Circuit.translate_module_until_collision, Circuit.translate_module]
    exact list_getD_set_ne _ _ _ _ _ hij
  rw [hjmod]
  conv_lhs => rw [Circuit.translate_module_until_collision]
  rw [translate_module_getD_self c i _ _ hi]
  simp only [get_modules_overlap_area]
  cases d
  case NORTH =>
    by_cases hband : (c.modules.getD i default).x <
          (c.modules.getD j default).x + (c.modules.getD j default).width ∧
        (c.modules.getD j default).x <
          (c.modules.getD i default).x + (c.modules.getD i default).width
    · have hD' : c.get_module_distance_until_collision i Direction.NORTH ≤
          (c.modules.getD j default).y -
            ((c.modules.getD i default).y + (c.modules.getD i default).height) := by
        simpa only [collision_candidate, Direction.is_vertical, Direction.is_positive,
          reduceIte, if_pos hband] using hD
      apply overlap_zero_of_height
      simp only [Module.rect]
      omega
    · exfalso
      simp only [collision_candidate, Direction.is_vertical, Direction.is_positive,
        reduceIte, if_neg hband] at hgap
      exact absurd hgap (lt_irrefl 0)
  case SOUTH =>
    by_cases hband : (c.modules.getD i default).x <
          (c.modules.getD j default).x + (c.modules.getD j default).width ∧
        (c.modules.getD j default).x <
          (c.modules.getD i default).x + (c.modules.getD i default).width
    · have hD' : c.get_module_distance_until_collision i Direction.SOUTH ≤
          (c.modules.getD i default).y -
            ((c.modules.getD j default).y + (c.modules.getD j default).height) := by
        simpa only [collision_candidate, Direction.is_vertical, Direction.is_positive,
          reduceIte, if_pos hband] using hD
      apply overlap_zero_of_height
      simp only [Module.rect]
      omega
    · exfalso
      simp only [collision_candidate, Direction.is_vertical, Direction.is_positive,
        reduceIte, if_neg hband] at hgap
      exact absurd hgap (lt_irrefl 0)
  case EAST =>
    by_cases hband : (c.modules.getD i default).y <
          (c.modules.getD j default).y + (c.modules.getD j default).height ∧
        (c.modules.getD j default).y <
          (c.modules.getD i default).y + (c.modules.getD i default).height
    · have hD' : c.get_module_distance_until_collision i Direction.EAST ≤
          (c.modules.getD j default).x -
            ((c.modules.getD i default).x + (c.modules.getD i default).width) := by
        simpa only [collision_candidate, Direction.is_vertical, Direction.is_positive,
          reduceIte, if_pos hband] using hD
      apply overlap_zero_of_base
      simp only [Module.rect]
      omega
    · exfalso
      simp only [collision_candidate, Direction.is_vertical, Direction.is_positive,
        reduceIte, if_neg hband] at hgap
      exact absurd hgap (lt_irrefl 0)
  case WEST =>
    by_cases hband : (c.modules.getD i default).y <
          (c.modules.getD j default).y + (c.modules.getD j default).height ∧
        (c.modules.getD j default).y <
          (c.modules.getD i default).y + (c.modules.getD i default).height
    · have hD' : c.get_module_distance_until_collision i Direction.WEST ≤
          (c.modules.getD i default).x -
            ((c.modules.getD j default).x + (c.modules.getD j default).width) := by
        simpa only [collision_candidate, Direction.is_vertical, Direction.is_positive,
          reduceIte, if_pos hband] using hD
      apply overlap_zero_of_base
      simp only [Module.rect]
      omega
    · exfalso
      simp only [collision_candidate, Direction.is_vertical, Direction.is_positive,
        reduceIte, if_neg hband] at hgap
      exact absurd hgap (lt_irrefl 0)

theorem translate_module_zero (c : Circuit) (i : Nat) (d : Direction) :
    c.translate_module i d 0 = c := by
  simp only [Circuit.translate_module]
  have h0 : (if d.is_positive then (0 : Int) else -0) = 0 := by
    cases d <;> simp [Direction.is_positive]
  rw [h0]
  have hm : (if d.is_vertical then
        { c.modules.getD i default with y := (c.modules.getD i default).y + 0 }
      else { c.modules.getD i default with x := (c.modules.getD i default).x + 0 }) =
      c.modules.getD i default := by
    cases d <;> simp [Direction.is_vertical]
  rw [hm, list_set_getD]

theorem boundary_after_translate (c : Circuit) (i : Nat) (d : Direction)
    (hi : i < c.modules.length) :
    (c.translate_module i d
      (c.get_module_distance_until_boundary i d)).get_module_distance_until_boundary i d
      = 0 := by
  cases d <;>
  · conv_lhs => rw [Circuit.get_module_distance_until_boundary]
    rw [translate_module_getD_self c i _ _ hi]
    simp only [Circuit.get_module_distance_until_boundary, Circuit.translate_module]
    ring

theorem scan_step_flag (c : Circuit) (pen : Nat × Nat → PenaltyFeatures)
    (acc : Bool × Rat) (pr : Nat × Nat) :
    (penalty_scan_step c pen acc pr).1 =
      (acc.1 || decide (0 < get_modules_overlap_area (c.modules.getD pr.1 default)
        (c.modules.getD pr.2 default))) := by
  by_cases h1 : 0 < get_modules_overlap_area (c.modules.getD pr.1 default)
      (c.modules.getD pr.2 default) <;>
  by_cases h2 : c.pair_connected pr ∧ 0 < (get_modules_distance_per_axis
      (c.modules.getD pr.1 default) (c.modules.getD pr.2 default)).dx <;>
  by_cases h3 : c.pair_connected pr ∧ 0 < (get_modules_distance_per_axis
      (c.modules.getD pr.1 default) (c.modules.getD pr.2 default)).dy <;>
  simp_all [penalty_scan_step] <;> (try split_ifs) <;> simp_all

theorem scan_step_max (c : Circuit) (pen : Nat × Nat → PenaltyFeatures)
    (acc : Bool × Rat) (pr : Nat × Nat) (hq : 0 ≤ acc.2) :
    (penalty_scan_step c pen acc pr).2 =
      max acc.2 (max (utility_features_of c pen pr).overlap
        (max (utility_features_of c pen pr).connection_x
          (utility_features_of c pen pr).connection_y)) := by
  have huo : ∀ h : ¬ 0 < get_modules_overlap_area (c.modules.getD pr.1 default)
      (c.modules.getD pr.2 default), (utility_features_of c pen pr).overlap = 0 := by
    intro h
    simp only [utility_features_of]
    rw [if_neg h]
  have hux : ∀ h : ¬ (c.pair_connected pr ∧ 0 < (get_modules_distance_per_axis
      (c.modules.getD pr.1 default) (c.modules.getD pr.2 default)).dx),
      (utility_features_of c pen pr).connection_x = 0 := by
    intro h
    simp only [utility_features_of]
    rw [if_neg h]
  have huy : ∀ h : ¬ (c.pair_connected pr ∧ 0 < (get_modules_distance_per_axis
      (c.modules.getD pr.1 default) (c.modules.getD pr.2 default)).dy),
      (utility_features_of c pen pr).connection_y = 0 := by
    intro h
    simp only [utility_features_of]
    rw [if_neg h]
  simp only [penalty_scan_step]
  by_cases h1 : 0 < get_modules_overlap_area (c.modules.getD pr.1 default)
      (c.modules.getD pr.2 default)
  · by_cases h2 : c.pair_connected pr ∧ 0 < (get_modules_distance_per_axis
        (c.modules.getD pr.1 default) (c.modules.getD pr.2 default)).dx
    · by_cases h3 : c.pair_connected pr ∧ 0 < (get_modules_distance_per_axis
          (c.modules.getD pr.1 default) (c.modules.getD pr.2 default)).dy
      · rw [if_pos h1, if_pos h2, if_pos h3]
        simp only [max_def]
        split_ifs <;> linarith
      · rw [if_pos h1, if_pos h2, if_neg h3, huy h3]
        simp only [max_def]
        split_ifs <;> linarith
    · by_cases h3 : c.pair_connected pr ∧ 0 < (get_modules_distance_per_axis
          (c.modules.getD pr.1 default) (c.modules.getD pr.2 default)).dy
      · rw [if_pos h1, if_neg h2, if_pos h3, hux h2]
        simp only [max_def]
        split_ifs <;> linarith
      · rw [if_pos h1, if_neg h2, if_neg h3, hux h2, huy h3]
        simp only [max_def]
        split_ifs <;> linarith
  · by_cases h2 : c.pair_connected pr ∧ 0 < (get_modules_distance_per_axis
        (c.modules.getD pr.1 default) (c.modules.getD pr.2 default)).dx
    · by_cases h3 : c.pair_connected pr ∧ 0 < (get_modules_distance_per_axis
          (c.modules.getD pr.1 default) (c.modules.getD pr.2 default)).dy
      · rw [if_neg h1, if_pos h2, if_pos h3, huo h1]
        simp only [max_def]
        split_ifs <;> linarith
      · rw [if_neg h1, if_pos h2, if_neg h3, huo h1, huy h3]
        simp only [max_def]
        split_ifs <;> linarith
    · by_cases h3 : c.pair_connected pr ∧ 0 < (get_modules_distance_per_axis
          (c.modules.getD pr.1 default) (c.modules.getD pr.2 default)).dy
      · rw [if_neg h1, if_neg h2, if_pos h3, huo h1, hux h2]
        simp only [max_def]
        split_ifs <;> linarith
      · rw [if_neg h1, if_neg h2, if_neg h3, huo h1, hux h2, huy h3]
        simp only [max_def]
        split_ifs <;> linarith

theorem scan_step_snd_nonneg (c : Circuit) (pen : Nat × Nat → PenaltyFeatures)
    (acc : Bool × Rat) (pr : Nat × Nat) (hq : 0 ≤ acc.2) :
    0 ≤ (penalty_scan_step c pen acc pr).2 := by
  rw [scan_step_max c pen acc pr hq]
  exact le_trans hq (le_max_left _ _)

theorem scan_fold_flag (c : Circuit) (pen : Nat × Nat → PenaltyFeatures) :
    ∀ (l : List (Nat × Nat)) (b : Bool) (q : Rat),
      (l.foldl (penalty_scan_step c pen) (b, q)).1 =
        (b || l.any fun pr => decide (0 < get_modules_overlap_area
          (c.modules.getD pr.1 default) (c.modules.getD pr.2 default))) := by
  intro l
  induction l with
  | nil => intro b q; simp
  | cons pr rest ih =>
    intro b q
    simp only [List.foldl_cons, List.any_cons]
    rw [show penalty_scan_step c pen (b, q) pr =
        ((penalty_scan_step c pen (b, q) pr).1, (penalty_scan_step c pen (b, q) pr).2) from rfl]
    rw [ih]
    rw [scan_step_flag]
    simp [Bool.or_assoc]

theorem scan_fold_max (c : Circuit) (pen : Nat × Nat → PenaltyFeatures) :
    ∀ (l : List (Nat × Nat)) (b : Bool) (q : Rat), 0 ≤ q →
      (l.foldl (penalty_scan_step c pen) (b, q)).2 =
        (l.map fun pr => max (utility_features_of c pen pr).overlap
          (max (utility_features_of c pen pr).connection_x
            (utility_features_of c pen pr).connection_y)).foldl max q := by
  intro l
  induction l with
  | nil => intro b q _; rfl
  | cons pr rest ih =>
    intro b q hq
    simp only [List.foldl_cons, List.map_cons]
    rw [show penalty_scan_step c pen (b, q) pr =
        ((penalty_scan_step c pen (b, q) pr).1, (penalty_scan_step c pen (b, q) pr).2) from rfl]
    rw [ih _ _ (scan_step_snd_nonneg c pen (b, q) pr hq)]
    rw [scan_step_max c pen (b, q) pr hq]

/-- C1: claimed that the plain objective of the circuit left in place when
`to_optimal_placement` returns is at most the plain objective after the
first local-optimum pass.  The call never returns: the first pass reads
the nonexistent attribute `modules_pins` and raises `AttributeError`
(on the concrete one-module circuit `sample_single`, as on every circuit
a `LocalSearch` can be built for). -/
theorem to_optimal_placement_crashes :
    to_optimal_placement sample_single 1000 =
      Except.error "AttributeError: Circuit object has no attribute modules_pins" := rfl

/-- C2: claimed that after `define_netlist` both orientations of every
module pair sharing the net are in `connected_modules_pairs`.  The loop
reads `netlist[i]`, which is a *pin*, so the set receives pin pairs and
never any module pair: on `sample_net` with one net over the two modules'
pins, the set is exactly the two pin-pair orientations and contains
neither module-pair orientation. -/
theorem define_netlist_inserts_pin_pairs :
    (sample_net.define_netlist [(0, 0), (1, 0)]).connected_modules_pairs =
      [(ObjRef.pinRef (0, 0), ObjRef.pinRef (1, 0)),
       (ObjRef.pinRef (1, 0), ObjRef.pinRef (0, 0))] ∧
    (ObjRef.moduleRef 0, ObjRef.moduleRef 1) ∉
      (sample_net.define_netlist [(0, 0), (1, 0)]).connected_modules_pairs ∧
    (ObjRef.moduleRef 1, ObjRef.moduleRef 0) ∉
      (sample_net.define_netlist [(0, 0), (1, 0)]).connected_modules_pairs := by
  decide

/-- C3: claimed that committed augmented-objective values strictly
decrease and the loop terminates.  The loop body's first statement reads
the nonexistent attribute `modules_pins` (the field is `module_to_pins`),
so on every circuit with at least one module — here `sample_single` — the
method raises `AttributeError` before any move is evaluated or
committed. -/
theorem to_local_optimum_placement_crashes :
    to_local_optimum_placement sample_single =
      Except.error "AttributeError: Circuit object has no attribute modules_pins" := rfl

/-- C4 counterexample: the claim quantifies over sequences containing
plain `translate` operations, but `translate_module` performs no bounds
check: translating the single fully-contained module of `sample_single`
100 north leaves the region, violating the claimed containment. -/
theorem plain_translate_breaks_containment :
    sample_single.fully_contained ∧
      ¬ (sample_single.translate_module 0 Direction.NORTH 100).claim_contained := by
  decide

/-- C4 (amended): starting from a circuit whose modules are fully inside
the region and whose pins are fully inside their modules, any finite
sequence of reflect, rotate, and translate-until-collision operations
(the move set actually used by the search) preserves
`0 ≤ x ≤ region.width − width`, `0 ≤ y ≤ region.height − height` for
every module and `0 ≤ dx + width ≤ module.width`,
`0 ≤ dy + height ≤ module.height` for every pin. -/
theorem containment_invariant_for_search_ops (c : Circuit) (ops : List PlacementOp)
    (h : c.fully_contained) : (c.applyOps ops).claim_contained :=
  contained_weaken _ (applyOps_preserves_contained c ops h)

/-- Witness for C4 at a concrete circuit and operation sequence. -/
theorem containment_invariant_for_search_ops_witness :
    sample_single.fully_contained ∧
      (sample_single.applyOps [PlacementOp.reflectOp 0 Axis.X, PlacementOp.rotateOp 0 90,
        PlacementOp.translateCollisionOp 0 Direction.NORTH]).claim_contained :=
  ⟨by decide, containment_invariant_for_search_ops _ _ (by decide)⟩

/-- C5 counterexample: on `sample_band` the second module overlaps the
first module's x-band (the band scanned by the northward collision
query) but already overlaps it vertically, so its non-positive gap is
ignored; after `translate_until_collision` north the two modules overlap
with area 4, refuting the claimed zero overlap with every band module. -/
theorem translate_until_collision_overlap_persists :
    ((sample_band.modules.getD 0 default).x <
        (sample_band.modules.getD 1 default).x + (sample_band.modules.getD 1 default).width ∧
      (sample_band.modules.getD 1 default).x <
        (sample_band.modules.getD 0 default).x + (sample_band.modules.getD 0 default).width) ∧
    ¬ get_modules_overlap_area
        ((sample_band.translate_module_until_collision 0 Direction.NORTH).modules.getD 0 default)
        ((sample_band.translate_module_until_collision 0 Direction.NORTH).modules.getD 1 default)
        = 0 := by
  decide

/-- C5 (amended): after `translate_until_collision(m, d)`, module `m` has
zero overlap with every other module for which the collision query
computed a strictly positive gap (band-overlapping and strictly ahead of
`m` in direction `d`); a band module whose gap was non-positive (already
overlapping or touching) may still overlap afterwards. -/
theorem translate_until_collision_clears_ahead_modules (c : Circuit) (i j : Nat) (d : Direction)
    (hi : i < c.modules.length) (hj : j < c.modules.length) (hij : j ≠ i)
    (hgap : 0 < collision_candidate (c.modules.getD i default) d (c.modules.getD j default)) :
    get_modules_overlap_area
      ((c.translate_module_until_collision i d).modules.getD i default)
      ((c.translate_module_until_collision i d).modules.getD j default) = 0 :=
  translate_collision_clears c i j d hi hj hij hgap

/-- Witness for C5 on `sample_stack`, whose second module is strictly
ahead of the first in the north direction. -/
theorem translate_until_collision_clears_ahead_modules_witness :
    (0 < sample_stack.modules.length ∧ 1 < sample_stack.modules.length ∧ (1 : Nat) ≠ 0 ∧
      0 < collision_candidate (sample_stack.modules.getD 0 default) Direction.NORTH
        (sample_stack.modules.getD 1 default)) ∧
    get_modules_overlap_area
      ((sample_stack.translate_module_until_collision 0 Direction.NORTH).modules.getD 0 default)
      ((sample_stack.translate_module_until_collision 0 Direction.NORTH).modules.getD 1 default)
      = 0 :=
  ⟨⟨by decide, by decide, by decide, by decide⟩,
    translate_until_collision_clears_ahead_modules sample_stack 0 1 Direction.NORTH
      (by decide) (by decide) (by decide) (by decide)⟩

/-- C6 counterexample: on `sample_stack` the first northward
`translate_until_collision` moves module 0 from y = 0 to y = 3, flush
against the blocker; the blocker's gap is then 0, which the query
ignores (only positive gaps count), so the second call computes
distance 5 and moves the module to y = 8, through the blocker — the
second call is not a no-op and the circuit state changes. -/
theorem translate_until_collision_not_idempotent :
    (sample_stack.translate_module_until_collision 0
        Direction.NORTH).get_module_distance_until_collision 0 Direction.NORTH = 5 ∧
    ((sample_stack.translate_module_until_collision 0
        Direction.NORTH).modules.getD 0 default).y = 3 ∧
    (((sample_stack.translate_module_until_collision 0
        Direction.NORTH).translate_module_until_collision 0
        Direction.NORTH).modules.getD 0 default).y = 8 := by
  decide

/-- C6 (amended): `translate_until_collision` is a pure function of the
circuit state (deterministic), and when the first call's distance equals
the region-boundary distance, the distance-until-collision afterwards is
0 and a second call translates by 0, leaving the whole circuit state
unchanged; when the first call instead stopped flush against a module,
the second call may translate further, so idempotence does not hold in
general. -/
theorem translate_until_collision_boundary_idempotent (c : Circuit) (i : Nat) (d : Direction)
    (hi : i < c.modules.length)
    (hb : c.get_module_distance_until_collision i d =
      c.get_module_distance_until_boundary i d) :
    (c.translate_module_until_collision i d).get_module_distance_until_collision i d = 0 ∧
    (c.translate_module_until_collision i d).translate_module_until_collision i d =
      c.translate_module_until_collision i d := by
  have hz : (c.translate_module_until_collision i d).get_module_distance_until_boundary i d
      = 0 := by
    have he : c.translate_module_until_collision i d =
        c.translate_module i d (c.get_module_distance_until_boundary i d) := by
      rw [Circuit.translate_module_until_collision, hb]
    rw [he]
    exact boundary_after_translate c i d hi
  have hle : (c.translate_module_until_collision i d).get_module_distance_until_collision i d
      ≤ 0 := by
    have := collision_distance_le_boundary (c.translate_module_until_collision i d) i d
    omega
  have hge : 0 ≤
      (c.translate_module_until_collision i d).get_module_distance_until_collision i d :=
    collision_fold_nonneg _ _ _ _ (le_of_eq hz.symm)
  have hcz : (c.translate_module_until_collision i d).get_module_distance_until_collision i d
      = 0 := le_antisymm hle hge
  refine ⟨hcz, ?_⟩
  show (c.translate_module_until_collision i d).translate_module i d
      ((c.translate_module_until_collision i d).get_module_distance_until_collision i d) = _
  rw [hcz]
  exact translate_module_zero _ i d

/-- Witness for C6 on `sample_single`, where the northward collision
distance is the boundary distance. -/
theorem translate_until_collision_boundary_idempotent_witness :
    (0 < sample_single.modules.length ∧
      sample_single.get_module_distance_until_collision 0 Direction.NORTH =
        sample_single.get_module_distance_until_boundary 0 Direction.NORTH) ∧
    (sample_single.translate_module_until_collision 0
        Direction.NORTH).get_module_distance_until_collision 0 Direction.NORTH = 0 ∧
    (sample_single.translate_module_until_collision 0
        Direction.NORTH).translate_module_until_collision 0 Direction.NORTH =
      sample_single.translate_module_until_collision 0 Direction.NORTH :=
  ⟨⟨by decide, by decide⟩,
    translate_until_collision_boundary_idempotent sample_single 0 Direction.NORTH
      (by decide) (by decide)⟩

/-- C7: when some elementary 90° step of the requested rotation fails its
region check along the executed trajectory, `rotate_module_cw` restores
the pre-rotation snapshot of the module and its pins, so the whole
circuit is left exactly as it was. -/
theorem rotate_cw_rollback_restores_state (c : Circuit) (i : Nat) (angle : Nat)
    (hi : i < c.modules.length)
    (hfail : ¬ steps_all_ok c.width c.height (angle / 90) (c.modules.getD i default)) :
    c.rotate_module_cw i angle = c := by
  simp only [Circuit.rotate_module_cw]
  rw [rotate_go_fail c.width c.height (c.modules.getD i default) (c.pins.getD i [])
    (angle / 90) (c.modules.getD i default) (c.pins.getD i []) hfail]
  simp only [list_set_getD]

/-- Witness for C7 on `sample_tall`, whose 2×8 module cannot rotate
inside the 4×10 region. -/
theorem rotate_cw_rollback_restores_state_witness :
    (0 < sample_tall.modules.length ∧
      ¬ steps_all_ok sample_tall.width sample_tall.height (90 / 90)
        (sample_tall.modules.getD 0 default)) ∧
    sample_tall.rotate_module_cw 0 90 = sample_tall :=
  ⟨⟨by decide, by decide⟩,
    rotate_cw_rollback_restores_state sample_tall 0 90 (by decide) (by decide)⟩

/-- C8: four successive 90° clockwise rotations, each passing its region
check, restore the module's original width and height and every pin's
original (dx, dy). -/
theorem rotate_cw_four_times_round_trip (c : Circuit) (i : Nat) (hi : i < c.modules.length)
    (h1 : rotate_check c.width c.height (c.modules.getD i default))
    (h2 : rotate_check c.width c.height
      ((c.rotate_module_cw i 90).modules.getD i default))
    (h3 : rotate_check c.width c.height
      (((c.rotate_module_cw i 90).rotate_module_cw i 90).modules.getD i default))
    (h4 : rotate_check c.width c.height
      ((((c.rotate_module_cw i 90).rotate_module_cw i 90).rotate_module_cw
        i 90).modules.getD i default)) :
    (((((c.rotate_module_cw i 90).rotate_module_cw i 90).rotate_module_cw
        i 90).rotate_module_cw i 90).modules.getD i default).width =
      (c.modules.getD i default).width ∧
    (((((c.rotate_module_cw i 90).rotate_module_cw i 90).rotate_module_cw
        i 90).rotate_module_cw i 90).modules.getD i default).height =
      (c.modules.getD i default).height ∧
    ((((c.rotate_module_cw i 90).rotate_module_cw i 90).rotate_module_cw
        i 90).rotate_module_cw i 90).pins.getD i [] = c.pins.getD i [] := by
  have hi1 : i < (c.rotate_module_cw i 90).modules.length := by
    rw [rotate_module_cw_length]
    exact hi
  have hi2 : i < ((c.rotate_module_cw i 90).rotate_module_cw i 90).modules.length := by
    rw [rotate_module_cw_length, rotate_module_cw_length]
    exact hi
  have hi3 : i < (((c.rotate_module_cw i 90).rotate_module_cw i 90).rotate_module_cw
      i 90).modules.length := by
    rw [rotate_module_cw_length, rotate_module_cw_length, rotate_module_cw_length]
    exact hi
  obtain ⟨hm1, hp1⟩ := rotate_cw_90_getD c i hi h1
  obtain ⟨hm2, hp2⟩ := rotate_cw_90_getD (c.rotate_module_cw i 90) i hi1 h2
  obtain ⟨hm3, hp3⟩ := rotate_cw_90_getD ((c.rotate_module_cw i 90).rotate_module_cw i 90)
    i hi2 h3
  obtain ⟨hm4, hp4⟩ := rotate_cw_90_getD
    (((c.rotate_module_cw i 90).rotate_module_cw i 90).rotate_module_cw i 90) i hi3 h4
  refine ⟨?_, ?_, ?_⟩
  · rw [hm4, hm3, hm2, hm1, rotate90_module_four]
  · rw [hm4, hm3, hm2, hm1, rotate90_module_four]
  · rw [hp4, hp3, hp2, hp1, hm3, hm2, hm1]
    exact list_map_four _ _ _ _ (rotate90_pin_four (c.modules.getD i default))
      (c.pins.getD i [])

/-- Witness for C8 on `sample_single`: the 2×2 module rotates freely in
the 10×10 region. -/
theorem rotate_cw_four_times_round_trip_witness :
    (0 < sample_single.modules.length ∧
      rotate_check sample_single.width sample_single.height
        (sample_single.modules.getD 0 default) ∧
      rotate_check sample_single.width sample_single.height
        ((sample_single.rotate_module_cw 0 90).modules.getD 0 default) ∧
      rotate_check sample_single.width sample_single.height
        (((sample_single.rotate_module_cw 0 90).rotate_module_cw 0 90).modules.getD
          0 default) ∧
      rotate_check sample_single.width sample_single.height
        ((((sample_single.rotate_module_cw 0 90).rotate_module_cw 0 90).rotate_module_cw
          0 90).modules.getD 0 default)) ∧
    ((((((sample_single.rotate_module_cw 0 90).rotate_module_cw 0 90).rotate_module_cw
        0 90).rotate_module_cw 0 90).modules.getD 0 default).width =
      (sample_single.modules.getD 0 default).width ∧
    (((((sample_single.rotate_module_cw 0 90).rotate_module_cw 0 90).rotate_module_cw
        0 90).rotate_module_cw 0 90).modules.getD 0 default).height =
      (sample_single.modules.getD 0 default).height ∧
    ((((sample_single.rotate_module_cw 0 90).rotate_module_cw 0 90).rotate_module_cw
        0 90).rotate_module_cw 0 90).pins.getD 0 [] = sample_single.pins.getD 0 []) :=
  ⟨⟨by decide, by decide, by decide, by decide, by decide⟩,
    rotate_cw_four_times_round_trip sample_single 0 (by decide) (by decide) (by decide)
      (by decide) (by decide)⟩

/-- C9: after one call to `update_penalties`, each pair-feature counter
equals its base value (the old counter, or 0 when no pair overlaps and
all counters were reset) plus 1 exactly when that feature's computed
utility equals the maximum utility over all pairs and features. -/
theorem update_penalties_characterization (c : Circuit) (pen : Nat × Nat → PenaltyFeatures)
    (pr : Nat × Nat) (hpr : pr ∈ module_pairs c) :
    update_penalties c pen pr =
      { overlap := (if any_overlap c then pen pr else ⟨0, 0, 0⟩).overlap +
          (if (utility_features_of c pen pr).overlap = max_utility c pen then 1 else 0),
        connection_x := (if any_overlap c then pen pr else ⟨0, 0, 0⟩).connection_x +
          (if (utility_features_of c pen pr).connection_x = max_utility c pen then 1 else 0),
        connection_y := (if any_overlap c then pen pr else ⟨0, 0, 0⟩).connection_y +
          (if (utility_features_of c pen pr).connection_y = max_utility c pen then 1
            else 0) } := by
  have hflag : ((module_pairs c).foldl (penalty_scan_step c pen) (false, 0)).1 =
      any_overlap c := by
    rw [scan_fold_flag c pen (module_pairs c) false 0]
    simp [any_overlap]
  have hmax : ((module_pairs c).foldl (penalty_scan_step c pen) (false, 0)).2 =
      max_utility c pen := by
    rw [scan_fold_max c pen (module_pairs c) false 0 le_rfl]
    simp [max_utility]
  simp only [update_penalties, hflag, hmax, if_pos hpr]
  rw [apply_ite (fun g : Nat × Nat → PenaltyFeatures => g pr)]

/-- Witness for C9 on `sample_overlap` with zero penalties. -/
theorem update_penalties_characterization_witness :
    (0, 1) ∈ module_pairs sample_overlap ∧
    update_penalties sample_overlap (fun _ => ⟨0, 0, 0⟩) (0, 1) =
      { overlap := (if any_overlap sample_overlap then (⟨0, 0, 0⟩ : PenaltyFeatures)
            else ⟨0, 0, 0⟩).overlap +
          (if (utility_features_of sample_overlap (fun _ => ⟨0, 0, 0⟩) (0, 1)).overlap =
            max_utility sample_overlap (fun _ => ⟨0, 0, 0⟩) then 1 else 0),
        connection_x := (if any_overlap sample_overlap then (⟨0, 0, 0⟩ : PenaltyFeatures)
            else ⟨0, 0, 0⟩).connection_x +
          (if (utility_features_of sample_overlap (fun _ => ⟨0, 0, 0⟩) (0, 1)).connection_x =
            max_utility sample_overlap (fun _ => ⟨0, 0, 0⟩) then 1 else 0),
        connection_y := (if any_overlap sample_overlap then (⟨0, 0, 0⟩ : PenaltyFeatures)
            else ⟨0, 0, 0⟩).connection_y +
          (if (utility_features_of sample_overlap (fun _ => ⟨0, 0, 0⟩) (0, 1)).connection_y =
            max_utility sample_overlap (fun _ => ⟨0, 0, 0⟩) then 1 else 0) } :=
  ⟨by decide, update_penalties_characterization sample_overlap (fun _ => ⟨0, 0, 0⟩) (0, 1)
    (by decide)⟩

/-- C10: for a module fully inside the region, the collision distance is
non-negative and bounded by the boundary distance, so
`translate_until_collision` keeps the module fully inside the region. -/
theorem collision_translation_stays_in_region (c : Circuit) (i : Nat) (d : Direction)
    (hi : i < c.modules.length)
    (h : (c.modules.getD i default).in_region c.width c.height) :
    0 ≤ c.get_module_distance_until_collision i d ∧
    c.get_module_distance_until_collision i d ≤
      c.get_module_distance_until_boundary i d ∧
    ((c.translate_module_until_collision i d).modules.getD i default).in_region
      c.width c.height :=
  ⟨collision_distance_nonneg c i d h, collision_distance_le_boundary c i d,
    translate_collision_in_region c i d hi h⟩

/-- Witness for C10 on `sample_stack` in the north direction. -/
theorem collision_translation_stays_in_region_witness :
    (0 < sample_stack.modules.length ∧
      (sample_stack.modules.getD 0 default).in_region sample_stack.width
        sample_stack.height) ∧
    (0 ≤ sample_stack.get_module_distance_until_collision 0 Direction.NORTH ∧
    sample_stack.get_module_distance_until_collision 0 Direction.NORTH ≤
      sample_stack.get_module_distance_until_boundary 0 Direction.NORTH ∧
    ((sample_stack.translate_module_until_collision 0
        Direction.NORTH).modules.getD 0 default).in_region sample_stack.width
      sample_stack.height) :=
  ⟨⟨by decide, by decide⟩,
    collision_translation_stays_in_region sample_stack 0 Direction.NORTH
      (by decide) (by decide)⟩

end Placer
